import Mathlib

/-!
Shallow embedding of the flashcard text normalizer of `main.py`
(quizlet_helper repository): the `Card` model, the loader/dumper, the
action registry and pipeline, the built-in regex-substitution actions,
quotation and exclamation pairing, sentence tokenization, and the
prefix-aware deduplicator with conflict logging.

Text is modelled as `List Char`, matching Python strings as sequences of
unicode code points (so `len` agrees with `List.length`).
-/

/-- Python strings are sequences of unicode code points. -/
abbrev Str := List Char

/-- The `Card` dataclass of `main.py`: `word`, `definition`, and a
`picture` whose default value is the empty string `""`.  The loader also
fills `picture` with a plain string when a chunk has three fields, so the
field is modelled as a string. -/
structure Card where
  word : Str
  definition : Str
  picture : Str
deriving DecidableEq, Repr

/-- ASCII part of the regex class `\s` (Python also accepts some non-ASCII
whitespace; no input in this development contains any). -/
def isWs (c : Char) : Bool :=
  c = ' ' || c = '\t' || c = '\n' || c = '\r' || c = '\x0b' || c = '\x0c'

/-- Python `str.removeprefix p`: drop the literal leading occurrence of `p`
if present, otherwise return the string unchanged. -/
def removePfx (s p : Str) : Str := if p.isPrefixOf s then s.drop p.length else s

/-- The fixed determiner list built in `deduplicate` of `main.py`:
`prefixes = ["el", "la", "los", "las", "un", "una", "unos", "unas"]`. -/
def determiners : List Str :=
  ["el".data, "la".data, "los".data, "las".data,
   "un".data, "una".data, "unos".data, "unas".data]

/-- The dedup key of a word, from `deduplicate` in `main.py`:
`reduce(lambda r, p: r.removeprefix(p), [card.word] + prefixes)`, a left
fold that removes each determiner literally, at most once, in list order. -/
def dedupKey (w : Str) : Str := determiners.foldl removePfx w

/-- Python `max(x, y, key=len)`: the second argument replaces the first only
when strictly longer, so ties keep the first argument. -/
def pyMaxLen (x y : Str) : Str := if x.length < y.length then y else x

/-- The warnings `deduplicate` sends to the logging collaborator:
`log.warning(f"Duplicate word: {card.word}")` and
`log.warning(f"Different definition: {seen[root].definition} vs {card.definition}")`. -/
inductive Warn where
  | dup (word : Str)
  | diff (stored incoming : Str)
deriving DecidableEq, Repr

/-- Lookup in the insertion-ordered dictionary `seen` of `deduplicate`. -/
def lookupA : List (Str × Card) → Str → Option Card
  | [], _ => none
  | (k, v) :: rest, key => if k = key then some v else lookupA rest key

/-- Assignment `seen[root] = card` when `root` is already a key: the value
is replaced and the entry keeps its original position. -/
def updateA : List (Str × Card) → Str → Card → List (Str × Card)
  | [], _, _ => []
  | (k, v) :: rest, key, c =>
    if k = key then (k, c) :: rest else (k, v) :: updateA rest key c

/-- The loop of `deduplicate` in `main.py`, threading the insertion-ordered
map `seen` and the list of logged warnings. On a repeat key it logs the
duplicate word, logs the two definitions when they differ, and stores a new
card built with `max(_, _, key=len)` on word and definition and the
incoming card's picture. -/
def dedupGo : List (Str × Card) → List Warn → List Card → List (Str × Card) × List Warn
  | seen, ws, [] => (seen, ws)
  | seen, ws, card :: rest =>
    match lookupA seen (dedupKey card.word) with
    | none => dedupGo (seen ++ [(dedupKey card.word, card)]) ws rest
    | some other =>
      dedupGo
        (updateA seen (dedupKey card.word)
          ⟨pyMaxLen card.word other.word,
           pyMaxLen card.definition other.definition,
           card.picture⟩)
        ((ws ++ [Warn.dup card.word]) ++
          (if other.definition = card.definition then []
           else [Warn.diff other.definition card.definition]))
        rest

/-- `deduplicate(cards)` of `main.py`: the surviving cards in first-seen
order, paired with the warnings logged along the way. -/
def deduplicate (cards : List Card) : List Card × List Warn :=
  ((dedupGo [] [] cards).1.map Prod.snd, (dedupGo [] [] cards).2)

deriving instance DecidableEq for Except

/-- The load-stage failure of `Card.loads`: building `Card(*fields)` raises
when the field list does not fit the constructor (Python raises a
`TypeError`; the spec calls the condition `FormatError`). The offending
field list is carried for reference. -/
inductive LoadError where
  | badFields (fields : List Str)
deriving DecidableEq, Repr

/-- `Card(*fields)`: two fields give word and definition with the default
empty picture, three fields also fill `picture`, any other arity raises. -/
def cardOfFields : List Str → Except LoadError Card
  | [w, d] => .ok ⟨w, d, []⟩
  | [w, d, p] => .ok ⟨w, d, p⟩
  | fs => .error (.badFields fs)

/-- The comprehension of `Card.loads`, over the already-split non-empty
chunks: cards are built left to right and the first failing chunk aborts
the whole load, so no partial list is returned. `splitWd` is the split on
the word/definition separator. -/
def loadsGo (splitWd : Str → List Str) : List Str → Except LoadError (List Card)
  | [] => .ok []
  | ch :: rest =>
    match cardOfFields (splitWd ch) with
    | .error e => .error e
    | .ok c =>
      match loadsGo splitWd rest with
      | .error e => .error e
      | .ok cs => .ok (c :: cs)

/-- `Card.loads` of `main.py`, parametrized by the two split functions that
model `re.split` for the word/definition and card separator patterns:
split the data on the card separator, drop falsy (empty) chunks, and build
one card per chunk. -/
def loadsWith (splitWd splitCd : Str → List Str) (data : Str) : Except LoadError (List Card) :=
  loadsGo splitWd ((splitCd data).filter (fun wd => !wd.isEmpty))

/-- Fuel-driven worker for `re.split` of a literal (metacharacter-free)
pattern `sep`: scan left to right, cut at each leftmost non-overlapping
occurrence. `acc` is the reversed current field. The fuel is always at
least the length of the remaining text, so the fallback row is unreachable. -/
def splitLitF (sep : Str) : Nat → Str → Str → List Str
  | 0, acc, s => [acc.reverse ++ s]
  | fuel + 1, acc, s =>
    if sep ≠ [] ∧ sep.isPrefixOf s then
      acc.reverse :: splitLitF sep fuel [] (s.drop sep.length)
    else
      match s with
      | [] => [acc.reverse]
      | c :: rest => splitLitF sep fuel (c :: acc) rest

/-- `re.split` of a literal pattern `sep` over `s`. -/
def splitLit (sep s : Str) : List Str := splitLitF sep (s.length + 1) [] s

/-- Characters that are special in a Python regular expression outside a
character class. `Card.loads` compiles its separators with `re.compile`, so
a one-character separator behaves as a literal split exactly when its
character is not one of these; a metacharacter such as `.` changes the
meaning of the compiled pattern entirely. -/
def isRegexMeta (c : Char) : Bool :=
  c = '.' || c = '^' || c = '$' || c = '*' || c = '+' || c = '?' ||
  c = '\x7b' || c = '\x7d' || c = '[' || c = ']' || c = '\\' || c = '|' ||
  c = '(' || c = ')'

/-- Worker for `re.split` of a one-character separator pattern whose
character is not a regex metacharacter (then the compiled pattern matches
exactly that literal character), written structurally (same behaviour as
`splitLit [c]`). `acc` is the reversed current field. -/
def splitCharAux (c : Char) : Str → Str → List Str
  | acc, [] => [acc.reverse]
  | acc, d :: rest =>
    if d = c then acc.reverse :: splitCharAux c [] rest
    else splitCharAux c (d :: acc) rest

/-- `re.split` of a one-character separator pattern `c` over `s`, faithful
to the program only when `isRegexMeta c = false`. -/
def splitChar (c : Char) (s : Str) : List Str := splitCharAux c [] s

/-- Fuel-driven worker for `re.split` of a default-separator-shaped pattern
`\s*LIT\s*` (the defaults are `\s*<sep>\s*` and `\s*<card>\s*`): a match
starts at the leftmost position from which optional whitespace is followed
by the literal, and greedily absorbs the whitespace after the literal. -/
def splitWsLitF (lit : Str) : Nat → Str → Str → List Str
  | 0, acc, s => [acc.reverse ++ s]
  | fuel + 1, acc, s =>
    if lit ≠ [] ∧ lit.isPrefixOf (s.dropWhile isWs) then
      acc.reverse ::
        splitWsLitF lit fuel [] ((((s.dropWhile isWs)).drop lit.length).dropWhile isWs)
    else
      match s with
      | [] => [acc.reverse]
      | c :: rest => splitWsLitF lit fuel (c :: acc) rest

/-- `re.split` of the pattern `\s*lit\s*` over `s`. -/
def splitWsLit (lit s : Str) : List Str := splitWsLitF lit (s.length + 1) [] s

/-- `Card.loads` with literal (metacharacter-free) separator patterns:
`sep1` separates word from definition, `sep2` separates cards. -/
def loadsLit (sep1 sep2 data : Str) : Except LoadError (List Card) :=
  loadsWith (splitLit sep1) (splitLit sep2) data

/-- `Card.loads` with one-character separator patterns; faithful to the
program only when neither character is a regex metacharacter
(`isRegexMeta` is `false` for both), since `Card.loads` compiles the
separators with `re.compile`. -/
def loadsChar (sep1 sep2 : Char) (data : Str) : Except LoadError (List Card) :=
  loadsWith (splitChar sep1) (splitChar sep2) data

/-- `Card.loads` with the default separators of `parse()`:
`--word-definition-seperator` is `\s*<sep>\s*` and `--card-seperator` is
`\s*<card>\s*`. -/
def loadsDefault (data : Str) : Except LoadError (List Card) :=
  loadsWith (splitWsLit "<sep>".data) (splitWsLit "<card>".data) data

/-- `Card.dumps` of `main.py`:
`card_sep.join([word_definition_sep.join([card.word, card.definition]) for card in cards])`,
written with the join unfolded for direct induction. -/
def dumps (sep1 sep2 : Str) : List Card → Str
  | [] => []
  | [c] => c.word ++ sep1 ++ c.definition
  | c :: rest => c.word ++ sep1 ++ c.definition ++ sep2 ++ dumps sep1 sep2 rest

/-- Python `pat in s` for a literal pattern: some drop of `s` starts with
`pat` (the empty pattern is a substring of everything). -/
def containsSub (pat s : Str) : Bool :=
  (List.range (s.length + 1)).any (fun i => pat.isPrefixOf (s.drop i))

/-- Python `str.strip()`: remove leading and trailing whitespace. -/
def pyStrip (s : Str) : Str := ((s.dropWhile isWs).reverse.dropWhile isWs).reverse

/-- The `trim_space` action of `main.py`: strip word and definition. -/
def trim_space (card : Card) : Card :=
  ⟨pyStrip card.word, pyStrip card.definition, card.picture⟩

/-- Fuel-driven worker for `re.sub(r"\s+", " ", s)`: every maximal run of
whitespace is replaced by a single space. The fuel is at least the length
of the remaining text, so the fallback row is unreachable. -/
def collapseWsF : Nat → Str → Str
  | 0, s => s
  | _ + 1, [] => []
  | fuel + 1, c :: rest =>
    if isWs c then ' ' :: collapseWsF fuel (rest.dropWhile isWs)
    else c :: collapseWsF fuel rest

/-- `re.sub(r"\s+", " ", s)`. -/
def collapseWs (s : Str) : Str := collapseWsF s.length s

/-- The `uniform_space` regex-substitution action: apply `\s+ -> " "` to
word and definition. -/
def uniform_space (card : Card) : Card :=
  ⟨collapseWs card.word, collapseWs card.definition, card.picture⟩

/-- Fuel-driven worker for `re.sub` of a pattern `\s*T\s*` for a single
target character `T` (as in `uniform_parenthesis` and the first four
`uniform_quotation` rows): each leftmost match, whitespace-run target
whitespace-run, is replaced by `repl`. -/
def subWsCharF (target : Char) (repl : Str) : Nat → Str → Str
  | 0, s => s
  | fuel + 1, s =>
    match s.dropWhile isWs with
    | c :: after =>
      if c = target then repl ++ subWsCharF target repl fuel (after.dropWhile isWs)
      else
        match s with
        | [] => []
        | d :: rest => d :: subWsCharF target repl fuel rest
    | [] => s

/-- `re.sub` of `\s*target\s*` by `repl` over `s`. -/
def subWsChar (target : Char) (repl : Str) (s : Str) : Str :=
  subWsCharF target repl s.length s

/-- The `uniform_parenthesis` regex-substitution action of `main.py`:
`\s*（\s* -> " ("` then `\s*）\s* -> ") "`, each applied to word and
definition in dictionary order. -/
def uniform_parenthesis (card : Card) : Card :=
  ⟨subWsChar '）' ") ".data (subWsChar '（' " (".data card.word),
   subWsChar '）' ") ".data (subWsChar '（' " (".data card.definition),
   card.picture⟩

/-- Fuel-driven worker for the run-collapsing rows of `uniform_quotation`:
`(?P<chr>[CLS]){2,}\s*` is replaced by `\g<chr>`, the last character of the
greedy maximal run (a repeated group captures its last repetition), and the
trailing whitespace is absorbed. Runs of length one are left alone. -/
def collapseRunF (cls : List Char) : Nat → Str → Str
  | 0, s => s
  | _ + 1, [] => []
  | fuel + 1, c :: rest =>
    if cls.contains c then
      if 2 ≤ ((c :: rest).takeWhile (fun x => cls.contains x)).length then
        ((c :: rest).takeWhile (fun x => cls.contains x)).getLastD c ::
          collapseRunF cls fuel
            (((c :: rest).drop ((c :: rest).takeWhile (fun x => cls.contains x)).length).dropWhile isWs)
      else c :: collapseRunF cls fuel rest
    else c :: collapseRunF cls fuel rest

/-- `re.sub` of `(?P<chr>[cls]){2,}\s*` by `\g<chr>` over `s`. -/
def collapseRun (cls : List Char) (s : Str) : Str := collapseRunF cls s.length s

/-- Opening-quote class `[『「"“‘']` of `uniform_quotation`. -/
def openRunCls : List Char := ['『', '「', '"', '“', '‘', '\'']

/-- Closing-quote class `[』」"”’']` of `uniform_quotation`. -/
def closeRunCls : List Char := ['』', '」', '"', '”', '’', '\'']

/-- One full pass of the `uniform_quotation` substitutions over a string,
in dictionary order. -/
def uniformQuotationStr (s : Str) : Str :=
  collapseRun closeRunCls
    (collapseRun openRunCls
      (subWsChar '』' "’ ".data
        (subWsChar '『' " ‘".data
          (subWsChar '」' "” ".data
            (subWsChar '「' " “".data s)))))

/-- The `uniform_quotation` regex-substitution action of `main.py`. -/
def uniform_quotation (card : Card) : Card :=
  ⟨uniformQuotationStr card.word, uniformQuotationStr card.definition, card.picture⟩

/-- Word characters of the regex class `\w` (ASCII part; no input in this
development exercises non-ASCII word characters at a split boundary). -/
def isWordChar (c : Char) : Bool := c.isAlphanum || c = '_'

/-- Sentence-final punctuation of the lookbehind `(?<=\.|\?|\!)`. -/
def isEndPunct (c : Char) : Bool := c = '.' || c = '?' || c = '!'

/-- The negative lookbehind `(?<!\w\.\w.)` of `sentence_tokenize`, applied
to the reversed left context: the four characters before the split point
read word-char, dot, word-char, any non-newline character. -/
def lbAbbrev (prev : List Char) : Bool :=
  match prev with
  | p1 :: p2 :: p3 :: p4 :: _ =>
    isWordChar p4 && p3 = '.' && isWordChar p2 && p1 ≠ '\n'
  | _ => false

/-- The negative lookbehind `(?<![A-Z][a-z]\.)` of `sentence_tokenize`:
the three characters before the split point read uppercase, lowercase, dot. -/
def lbInitial (prev : List Char) : Bool :=
  match prev with
  | p1 :: p2 :: p3 :: _ => p3.isUpper && p2.isLower && p1 = '.'
  | _ => false

/-- Whether `re.split(r"(?<!\w\.\w.)(?<![A-Z][a-z]\.)(?<=\.|\?|\!)\s", s)`
splits at a whitespace character whose reversed left context is `prev`. -/
def splitsHere (prev : List Char) : Bool :=
  match prev with
  | p1 :: _ => isEndPunct p1 && !lbAbbrev prev && !lbInitial prev
  | [] => false

/-- Worker for `sentence_tokenize`: walk the string keeping the reversed
left context `prev` and the reversed current sentence `acc`; a qualifying
whitespace character is consumed as the separator. -/
def sentenceTokenizeAux : List Char → Str → Str → List Str
  | _, acc, [] => [acc.reverse]
  | prev, acc, c :: rest =>
    if isWs c && splitsHere prev then acc.reverse :: sentenceTokenizeAux (c :: prev) [] rest
    else sentenceTokenizeAux (c :: prev) (c :: acc) rest

/-- `sentence_tokenize` of `main.py`. -/
def sentence_tokenize (s : Str) : List Str := sentenceTokenizeAux [] [] s

/-- The loop body of `pair_exclamation` on one sentence: all four `if`
statements test the original `sentence`, and each taken branch overwrites
the slot with a value built from the original `sentence`, so a later taken
branch discards the effect of an earlier one. -/
def pairSentence (sentence : Str) : Str :=
  let r := sentence
  let r := if ['!'].isSuffixOf sentence && !(['¡'].isPrefixOf sentence)
           then '¡' :: sentence else r
  let r := if !(['¡'].isPrefixOf sentence) && ['!'].isSuffixOf sentence
           then sentence ++ ['!'] else r
  let r := if ['¿'].isPrefixOf sentence && !(['?'].isSuffixOf sentence)
           then sentence ++ ['?'] else r
  let r := if !(['¿'].isPrefixOf sentence) && ['?'].isSuffixOf sentence
           then '¿' :: sentence else r
  r

/-- Python `" ".join`. -/
def joinSpace : List Str → Str
  | [] => []
  | [s] => s
  | s :: rest => s ++ ' ' :: joinSpace rest

/-- The `_impl` of `pair_exclamation`: tokenize into sentences, rewrite
each slot, re-join with single spaces. -/
def pairExclamationStr (s : Str) : Str :=
  joinSpace ((sentence_tokenize s).map pairSentence)

/-- The `pair_exclamation` action of `main.py`, applied to word and
definition. -/
def pair_exclamation (card : Card) : Card :=
  ⟨pairExclamationStr card.word, pairExclamationStr card.definition, card.picture⟩

/-- Character class `single_start` of the `pair_quotation` pattern: `['‘]`. -/
def isSingleStart (c : Char) : Bool := c = '\'' || c = '‘'

/-- Character class `single_end`: `['’]`. -/
def isSingleEnd (c : Char) : Bool := c = '\'' || c = '’'

/-- Character class `double_start`: `["“]`. -/
def isDoubleStart (c : Char) : Bool := c = '"' || c = '“'

/-- Character class `double_end`: `["”]`. -/
def isDoubleEnd (c : Char) : Bool := c = '"' || c = '”'

/-- The complement class of the `not` rule `[^"“”'‘’]`. -/
def isQuoteGlyph (c : Char) : Bool :=
  c = '"' || c = '“' || c = '”' || c = '\'' || c = '‘' || c = '’'

/-- A capture span `(start, end)` of the `quote` group, end exclusive. -/
abbrev Span := Nat × Nat

/-- Modes of the recursive-descent scanner that replays the possessive
recursive pattern of `pair_quotation`: `.quote` matches the `quote` rule at
a position, `.item` one alternation step `(?:(?&not)|(?&quote))` (the `not`
branch is tried first), `.many`/`.plus` the possessive repetitions.  A
successful call returns the end position and the capture history of the
`quote` group, innermost captures first (a group records its span when it
closes, and a failed attempt unwinds its captures). -/
inductive QMode where
  | quote
  | item
  | many
  | plus

/-- The scanner itself, structurally recursive on its fuel (the fuel is
sized so that the fallback rows are unreachable on the inputs evaluated
here). -/
def scanQ : Nat → QMode → List Char → Nat → Option (Nat × List Span)
  | 0, _, _, _ => none
  | fuel + 1, .quote, s, i =>
    match s.get? i with
    | none => none
    | some c =>
      if isSingleStart c then
        match scanQ fuel .plus s (i + 1) with
        | none => none
        | some (j, sps) =>
          match s.get? j with
          | some e => if isSingleEnd e then some (j + 1, sps ++ [(i, j + 1)]) else none
          | none => none
      else if isDoubleStart c then
        match scanQ fuel .plus s (i + 1) with
        | none => none
        | some (j, sps) =>
          match s.get? j with
          | some e => if isDoubleEnd e then some (j + 1, sps ++ [(i, j + 1)]) else none
          | none => none
      else none
  | fuel + 1, .item, s, i =>
    match s.get? i with
    | none => none
    | some c =>
      if !isQuoteGlyph c then
        some (i + ((s.drop i).takeWhile (fun x => !isQuoteGlyph x)).length, [])
      else scanQ fuel .quote s i
  | fuel + 1, .many, s, i =>
    match scanQ fuel .item s i with
    | none => some (i, [])
    | some (j, sps) =>
      match scanQ fuel .many s j with
      | some (k, more) => some (k, sps ++ more)
      | none => some (j, sps)
  | fuel + 1, .plus, s, i =>
    match scanQ fuel .item s i with
    | none => none
    | some (j, sps) =>
      match scanQ fuel .many s j with
      | some (k, more) => some (k, sps ++ more)
      | none => some (j, sps)

/-- `match_quotation.finditer(s)`: try the pattern at each position, take
the leftmost match, continue after its end; yields each match's capture
history of the `quote` group. -/
def findSpans : Nat → List Char → Nat → List (List Span)
  | 0, _, _ => []
  | fuel + 1, s, i =>
    if i < s.length then
      match scanQ (4 * s.length + 16) .quote s i with
      | some (e, sps) => sps :: findSpans fuel s e
      | none => findSpans fuel s (i + 1)
    else []

/-- All matches of `match_quotation` over `s`, each with its capture spans. -/
def findMatches (s : List Char) : List (List Span) := findSpans (s.length + 1) s 0

/-- Python `min(level, key=lambda t: t[0])[0]` over a span list with seed. -/
def minFst : List Span → Nat → Nat
  | [], d => d
  | t :: ts, d => minFst ts (min d t.1)

/-- Python `max(level, key=lambda t: t[1])[1]` over a span list with seed. -/
def maxSnd : List Span → Nat → Nat
  | [], d => d
  | t :: ts, d => maxSnd ts (max d t.2)

/-- One step of the level-bucketing loop of `pair_quotation._impl`: a span
that strictly contains the envelope of the current level 0 opens a new
outermost level (`levels.insert(0, [span])`), anything else is prepended
into level 0 (`levels[0].insert(0, span)`). -/
def bucketStep (levels : List (List Span)) (span : Span) : List (List Span) :=
  match levels with
  | [] => [[span]]
  | [] :: rest => [span] :: [] :: rest
  | (t :: ts) :: rest =>
    if span.1 < minFst ts t.1 ∧ maxSnd ts t.2 < span.2 then
      [span] :: (t :: ts) :: rest
    else (span :: t :: ts) :: rest

/-- Bucket the capture spans of one match into nesting levels, outermost
level first. -/
def bucket (spans : List Span) : List (List Span) := spans.foldl bucketStep []

/-- Write the open/close glyphs of one span into the character array:
`char_arr[lo]` and `char_arr[hi - 1]` become curly double quotes when
`dbl` is set, curly single quotes otherwise. -/
def setGlyphs (dbl : Bool) (arr : List Char) (sp : Span) : List Char :=
  (arr.set sp.1 (if dbl then '“' else '‘')).set (sp.2 - 1) (if dbl then '”' else '’')

/-- Rewrite every span of one level with the glyph family chosen by `dbl`. -/
def applyLevel (dbl : Bool) (l : List Span) (arr : List Char) : List Char :=
  l.foldl (setGlyphs dbl) arr

/-- The glyph-assignment loop of `pair_quotation._impl`: `dbl` starts true
at the outermost level and flips at each deeper level. -/
def applyLevels : Bool → List (List Span) → List Char → List Char
  | _, [], arr => arr
  | dbl, l :: ls, arr => applyLevels (!dbl) ls (applyLevel dbl l arr)

/-- Glyph assignment phrased the way the specification states it: the
level at depth `k` uses double curly quotes exactly when `k` is even.
Written from the spec's words, to be compared with `applyLevels`. -/
def applyLevelsByDepth : Nat → List (List Span) → List Char → List Char
  | _, [], arr => arr
  | k, l :: ls, arr => applyLevelsByDepth (k + 1) ls (applyLevel (k % 2 == 0) l arr)

/-- `pair_quotation._impl`: find all matches, bucket each match's capture
spans into levels, and rewrite the boundary glyphs level by level starting
with double quotes. -/
def pairQuotationStr (s : Str) : Str :=
  (findMatches s).foldl (fun arr sps => applyLevels true (bucket sps) arr) s

/-- The `pair_quotation` action of `main.py`, applied to word and
definition. -/
def pair_quotation (card : Card) : Card :=
  ⟨pairQuotationStr card.word, pairQuotationStr card.definition, card.picture⟩

/-- The process-wide `Action.jump_table` after the module-level
registrations of `main.py`, in registration (hence dictionary-insertion)
order. -/
def jumpTable : List (Str × (Card → Card)) :=
  [("uniform_space".data, uniform_space),
   ("uniform_parenthesis".data, uniform_parenthesis),
   ("uniform_quotation".data, uniform_quotation),
   ("pair_quotation".data, pair_quotation),
   ("pair_exclamation".data, pair_exclamation),
   ("trim_space".data, trim_space)]

/-- `cls.jump_table[action]` for a string action name: first (unique)
entry with that key. -/
def lookupAction (n : Str) : Option (Card → Card) :=
  (jumpTable.find? (fun p => decide (p.1 = n))).map Prod.snd

/-- Result of `Action.apply`. An unknown name raises `KeyError` when the
loop reaches it; the card objects already transformed in place by the
earlier stages stay transformed, so the error constructor carries the
cards as they are at the moment of failure. -/
inductive ApplyResult where
  | ok (cards : List Card)
  | err (cardsAtFailure : List Card) (missing : Str)
deriving DecidableEq

/-- `Action.apply(cards, actions)` of `main.py` for string action names:
each name is resolved against the jump table only when its stage starts,
and the whole card list is mapped through a stage before the next name is
looked up. -/
def apply : List Card → List Str → ApplyResult
  | cards, [] => .ok cards
  | cards, n :: rest =>
    match lookupAction n with
    | some f => apply (cards.map f) rest
    | none => .err cards n

/-- The cards produced by folding the registered actions named by `names`
over `cards`, skipping nothing (used to describe `apply` up to the first
unknown name). -/
def applyKnown (cards : List Card) (names : List Str) : List Card :=
  names.foldl
    (fun cs n => match lookupAction n with | some f => cs.map f | none => cs) cards

/-- `Action.__init__`: registering a name already present in the table
raises `ValueError(f"Action {self.name} already exists.")` before the
assignment, otherwise the pair is appended. The payload type is abstract:
the registration logic never inspects the transform. -/
def register {α : Type} (t : List (Str × α)) (n : Str) (a : α) :
    Except Str (List (Str × α)) :=
  if n ∈ t.map Prod.fst then .error n else .ok (t ++ [(n, a)])

/-- The table a caller observes after `Action.__init__` returns or raises:
on the duplicate-name `ValueError` the global table is left as it was. -/
def registerPost {α : Type} (t : List (Str × α)) (n : Str) (a : α) : List (Str × α) :=
  match register t n a with
  | .ok t' => t'
  | .error _ => t

/-- `main()` of `main.py` with `--deduplicate` left at its default `True`:
load with the default separator patterns, apply the named actions,
deduplicate, and dump with the literal separators `"\t"` and `"\n"`.
Returns the output file content and the logged dedup warnings; `none`
models an uncaught exception (load failure or unknown action name). -/
def runPipeline (data : Str) (names : List Str) : Option (Str × List Warn) :=
  match loadsDefault data with
  | .error _ => none
  | .ok cards =>
    match apply cards names with
    | .ok cards2 =>
      some (dumps "\t".data "\n".data (deduplicate cards2).1, (deduplicate cards2).2)
    | .err _ _ => none

/-- Hypotheses on one card under which single-character-separator
round-tripping is exact: non-empty fields, no separator character occurs in
them, and the picture is empty (dump drops pictures). -/
def RoundTrippable (s1 s2 : Char) (c : Card) : Prop :=
  c.word ≠ [] ∧ c.definition ≠ [] ∧
  s1 ∉ c.word ∧ s2 ∉ c.word ∧ s1 ∉ c.definition ∧ s2 ∉ c.definition ∧
  c.picture = []

instance (s1 s2 : Char) (c : Card) : Decidable (RoundTrippable s1 s2 c) := by
  unfold RoundTrippable
  infer_instance

/-! ## Helper lemmas -/

lemma succ_parity (k : Nat) : ((k + 1) % 2 == 0) = !(k % 2 == 0) := by
  rcases Nat.mod_two_eq_zero_or_one k with h | h <;> simp [Nat.add_mod, h]

lemma applyLevelsByDepth_eq (ls : List (List Span)) :
    ∀ (k : Nat) (arr : List Char),
      applyLevelsByDepth k ls arr = applyLevels (k % 2 == 0) ls arr := by
  induction ls with
  | nil => intro k arr; rfl
  | cons l ls ih =>
    intro k arr
    show applyLevelsByDepth (k + 1) ls (applyLevel (k % 2 == 0) l arr) =
      applyLevels (!(k % 2 == 0)) ls (applyLevel (k % 2 == 0) l arr)
    rw [ih (k + 1), succ_parity]

lemma cardOfFields_error_iff (fs : List Str) :
    (∃ e, cardOfFields fs = .error e) ↔ fs.length ≠ 2 ∧ fs.length ≠ 3 := by
  match fs with
  | [] => simp [cardOfFields]
  | [w] => simp [cardOfFields]
  | [w, d] => simp [cardOfFields]
  | [w, d, p] => simp [cardOfFields]
  | w :: d :: p :: q :: rest => simp [cardOfFields]

lemma loadsGo_error_iff (f : Str → List Str) (l : List Str) :
    (∃ e, loadsGo f l = .error e) ↔
      ∃ ch ∈ l, (f ch).length ≠ 2 ∧ (f ch).length ≠ 3 := by
  induction l with
  | nil => simp [loadsGo]
  | cons ch rest ih =>
    cases h : cardOfFields (f ch) with
    | error e =>
      simp only [loadsGo, h]
      constructor
      · intro _
        exact ⟨ch, List.mem_cons_self _ _, (cardOfFields_error_iff (f ch)).1 ⟨e, h⟩⟩
      · intro _
        exact ⟨e, rfl⟩
    | ok c =>
      have hok : ¬((f ch).length ≠ 2 ∧ (f ch).length ≠ 3) := by
        intro hbad
        rcases (cardOfFields_error_iff (f ch)).2 hbad with ⟨e, he⟩
        rw [h] at he
        exact Except.noConfusion he
      cases h2 : loadsGo f rest with
      | error e2 =>
        simp only [loadsGo, h, h2]
        constructor
        · intro _
          rcases ih.1 ⟨e2, h2⟩ with ⟨ch', hmem, hbad⟩
          exact ⟨ch', List.mem_cons_of_mem _ hmem, hbad⟩
        · intro _
          exact ⟨e2, rfl⟩
      | ok cs =>
        simp only [loadsGo, h, h2]
        constructor
        · rintro ⟨e, he⟩
          exact Except.noConfusion he
        · rintro ⟨ch', hmem, hbad⟩
          rcases List.mem_cons.1 hmem with rfl | hmem'
          · exact absurd hbad hok
          · rcases ih.2 ⟨ch', hmem', hbad⟩ with ⟨e, he⟩
            rw [h2] at he
            exact Except.noConfusion he

lemma dedup_pair (c1 c2 : Card) (hk : dedupKey c1.word = dedupKey c2.word) :
    deduplicate [c1, c2] =
      ([⟨pyMaxLen c2.word c1.word, pyMaxLen c2.definition c1.definition, c2.picture⟩],
       Warn.dup c2.word ::
         (if c1.definition = c2.definition then []
          else [Warn.diff c1.definition c2.definition])) := by
  by_cases hd : c1.definition = c2.definition <;>
    simp [deduplicate, dedupGo, lookupA, updateA, ← hk, hd]

lemma splitCharAux_no_sep (c : Char) (s : Str) (h : c ∉ s) :
    ∀ acc, splitCharAux c acc s = [acc.reverse ++ s] := by
  induction s with
  | nil => intro acc; simp [splitCharAux]
  | cons d rest ih =>
    intro acc
    have hd : d ≠ c := by
      rintro rfl
      exact h (List.mem_cons_self _ _)
    have h' : c ∉ rest := fun hm => h (List.mem_cons_of_mem _ hm)
    simp [splitCharAux, hd, ih h']

lemma splitCharAux_found (c : Char) (a b : Str) (ha : c ∉ a) :
    ∀ acc, splitCharAux c acc (a ++ c :: b) = (acc.reverse ++ a) :: splitCharAux c [] b := by
  induction a with
  | nil => intro acc; simp [splitCharAux]
  | cons d restA ih =>
    intro acc
    have hd : d ≠ c := by
      rintro rfl
      exact ha (List.mem_cons_self _ _)
    have ha' : c ∉ restA := fun hm => ha (List.mem_cons_of_mem _ hm)
    simp [splitCharAux, hd, ih ha']

lemma loadsChunkOk (s1 : Char) (c : Card) (hw : s1 ∉ c.word) (hd : s1 ∉ c.definition)
    (hp : c.picture = []) :
    cardOfFields (splitChar s1 (c.word ++ s1 :: c.definition)) = .ok c := by
  unfold splitChar
  rw [splitCharAux_found s1 c.word c.definition hw []]
  rw [splitCharAux_no_sep s1 c.definition hd []]
  obtain ⟨w, d, p⟩ := c
  simp only at hp
  simp [cardOfFields, hp]

lemma loadsGo_cons_ok (f : Str → List Str) (ch : Str) (l : List Str) (c : Card)
    (hch : cardOfFields (f ch) = .ok c) (cs : List Card)
    (hl : loadsGo f l = .ok cs) : loadsGo f (ch :: l) = .ok (c :: cs) := by
  simp [loadsGo, hch, hl]

lemma chunk_not_empty (w d : Str) (s1 : Char) : (w ++ s1 :: d).isEmpty = false := by
  cases w <;> rfl

lemma chunk_no_sep (c : Card) (s1 s2 : Char) (hne : s1 ≠ s2)
    (h2w : s2 ∉ c.word) (h2d : s2 ∉ c.definition) :
    s2 ∉ c.word ++ s1 :: c.definition := by
  intro hm
  rcases List.mem_append.1 hm with hm | hm
  · exact h2w hm
  · rcases List.mem_cons.1 hm with hm | hm
    · exact hne hm.symm
    · exact h2d hm

lemma applyReachesUnknown (pre : List Str) :
    ∀ (cards : List Card) (bad : Str) (rest : List Str),
      (∀ n ∈ pre, (lookupAction n).isSome = true) →
      (lookupAction bad).isNone = true →
      apply cards (pre ++ bad :: rest) = .err (applyKnown cards pre) bad := by
  induction pre with
  | nil =>
    intro cards bad rest _ h2
    have hb : lookupAction bad = none := by
      cases hx : lookupAction bad
      · rfl
      · rw [hx] at h2
        exact absurd h2 (by simp)
    simp [apply, applyKnown, hb]
  | cons n pre ih =>
    intro cards bad rest h1 h2
    rcases Option.isSome_iff_exists.1 (h1 n (List.mem_cons_self _ _)) with ⟨f, hf⟩
    have h1' : ∀ m ∈ pre, (lookupAction m).isSome = true :=
      fun m hm => h1 m (List.mem_cons_of_mem _ hm)
    have e2 : applyKnown cards (n :: pre) = applyKnown (cards.map f) pre := by
      simp [applyKnown, hf]
    rw [List.cons_append]
    simp only [apply, hf]
    rw [e2]
    exact ih (cards.map f) bad rest h1' h2

lemma splitChar_dumps_cons (s1 s2 : Char) (hne : s1 ≠ s2) (c c2 : Card)
    (rest2 : List Card) (h2w : s2 ∉ c.word) (h2d : s2 ∉ c.definition) :
    splitChar s2 (dumps [s1] [s2] (c :: c2 :: rest2)) =
      (c.word ++ s1 :: c.definition) :: splitChar s2 (dumps [s1] [s2] (c2 :: rest2)) := by
  have hsh : dumps [s1] [s2] (c :: c2 :: rest2) =
      (c.word ++ s1 :: c.definition) ++ s2 :: dumps [s1] [s2] (c2 :: rest2) := by
    show c.word ++ [s1] ++ c.definition ++ [s2] ++ dumps [s1] [s2] (c2 :: rest2) = _
    simp
  rw [hsh]
  unfold splitChar
  rw [splitCharAux_found s2 _ _ (chunk_no_sep c s1 s2 hne h2w h2d) []]
  simp

lemma roundtrip_aux (s1 s2 : Char) (hne : s1 ≠ s2) :
    ∀ cards : List Card, (∀ c ∈ cards, RoundTrippable s1 s2 c) →
      loadsChar s1 s2 (dumps [s1] [s2] cards) = .ok cards := by
  intro cards
  induction cards with
  | nil => intro _; rfl
  | cons c rest ih =>
    intro hc
    obtain ⟨hw, hd, h1w, h2w, h1d, h2d, hp⟩ := hc c (List.mem_cons_self _ _)
    have hcr : ∀ c' ∈ rest, RoundTrippable s1 s2 c' :=
      fun c' hm => hc c' (List.mem_cons_of_mem _ hm)
    cases rest with
    | nil =>
      have hsh : dumps [s1] [s2] [c] = c.word ++ s1 :: c.definition := by
        show c.word ++ [s1] ++ c.definition = _
        simp
      have hsplit : splitChar s2 (dumps [s1] [s2] [c]) = [c.word ++ s1 :: c.definition] := by
        rw [hsh]
        unfold splitChar
        rw [splitCharAux_no_sep s2 _ (chunk_no_sep c s1 s2 hne h2w h2d) []]
        simp
      show loadsWith (splitChar s1) (splitChar s2) (dumps [s1] [s2] [c]) = .ok [c]
      unfold loadsWith
      rw [hsplit]
      simp only [List.filter_cons, chunk_not_empty, Bool.not_false, if_true,
        List.filter_nil]
      exact loadsGo_cons_ok _ _ _ c (loadsChunkOk s1 c h1w h1d hp) [] rfl
    | cons c2 rest2 =>
      have ihr := ih hcr
      show loadsWith (splitChar s1) (splitChar s2) (dumps [s1] [s2] (c :: c2 :: rest2)) =
        .ok (c :: c2 :: rest2)
      unfold loadsWith at ihr ⊢
      rw [splitChar_dumps_cons s1 s2 hne c c2 rest2 h2w h2d]
      simp only [List.filter_cons, chunk_not_empty, Bool.not_false, if_true]
      exact loadsGo_cons_ok _ _ _ c (loadsChunkOk s1 c h1w h1d hp) (c2 :: rest2) ihr

/-! ## Claim theorems -/

/-- C1 (code bug): the dedup key of `"el perro"` is `" perro"` — stripping
the literal prefix `el` keeps the following space — while the key of
`"perro"` is `"perro"`, so the two keys differ and `deduplicate` keeps the
two cards as separate entries instead of merging them. -/
theorem dedup_el_perro_keys_differ :
    dedupKey "el perro".data = " perro".data ∧
    dedupKey "perro".data = "perro".data ∧
    dedupKey "el perro".data ≠ dedupKey "perro".data ∧
    (deduplicate [⟨"el perro".data, "dog".data, []⟩, ⟨"perro".data, "dog".data, []⟩]).1 =
      [⟨"el perro".data, "dog".data, []⟩, ⟨"perro".data, "dog".data, []⟩] := by decide

/-- C2 (code bug): the second `if` of `pair_exclamation` tests
`not startswith("¡") and endswith("!")` instead of the mirrored
`startswith("¡") and not endswith("!")`, and every branch rebuilds the slot
from the original sentence, so `"Wow!"` becomes `"Wow!!"` (not `"¡Wow!"`)
and `"¡Hola"` is left unchanged (not `"¡Hola!"`), while the `¿`/`?` side
behaves as specified. -/
theorem pair_exclamation_failing_inputs :
    pair_exclamation ⟨"Wow!".data, "¡Hola".data, []⟩ = ⟨"Wow!!".data, "¡Hola".data, []⟩ ∧
    "Wow!!".data ≠ "¡Wow!".data ∧
    pairExclamationStr "¡Hola".data ≠ "¡Hola!".data ∧
    pairExclamationStr "¿Como".data = "¿Como?".data ∧
    pairExclamationStr "Que?".data = "¿Que?".data := by decide

/-- C3: on `"he said 'hi' to me"` wrapped in straight double quotes,
`pair_quotation` captures the inner span `(9, 13)` and the outer span
`(0, 20)`, rewrites only the four boundary glyphs, and produces
`“he said ‘hi’ to me”`; moreover the glyph-assignment loop agrees
everywhere with the specification's by-depth rule (double curly quotes at
even depth, single at odd depth). -/
theorem pair_quotation_nesting :
    pairQuotationStr "\"he said 'hi' to me\"".data = "“he said ‘hi’ to me”".data ∧
    findMatches "\"he said 'hi' to me\"".data = [[(9, 13), (0, 20)]] ∧
    ∀ (ls : List (List Span)) (arr : List Char),
      applyLevels true ls arr = applyLevelsByDepth 0 ls arr := by
  refine ⟨by decide, by decide, fun ls arr => ?_⟩
  exact (applyLevelsByDepth_eq ls 0 arr).symm

/-- C4 (counterexample): a chunk that splits into three fields does not
raise — `Card(*fields)` accepts the third field as the picture — so load
succeeds on `"a<sep>b<sep>c"`, contradicting the claim that any field
count other than two is an error. -/
theorem loads_three_fields_no_error :
    (splitLit "<sep>".data "a<sep>b<sep>c".data).length = 3 ∧
    loadsLit "<sep>".data "<card>".data "a<sep>b<sep>c".data =
      .ok [⟨"a".data, "b".data, "c".data⟩] := by decide

/-- C4 (amended): load fails exactly when some non-empty chunk splits into
a number of fields other than two or three; a three-field chunk yields a
card whose picture is the third field, and on failure no partial card list
is returned (the error is the whole result). -/
theorem loads_error_iff_bad_field_count :
    (∀ (f g : Str → List Str) (data : Str),
      (∃ e, loadsWith f g data = .error e) ↔
        ∃ ch ∈ (g data).filter (fun wd => !wd.isEmpty),
          (f ch).length ≠ 2 ∧ (f ch).length ≠ 3) ∧
    (∀ w d p : Str, cardOfFields [w, d, p] = .ok ⟨w, d, p⟩) :=
  ⟨fun f _ _ => loadsGo_error_iff f _, fun _ _ _ => rfl⟩

/-- C5 (counterexample): `Action.apply` resolves each name only when its
stage starts, so with action list `["trim_space", "nope"]` the unknown
name is reached after `trim_space` has already transformed the card:
at the failure point the cards differ from the input. -/
theorem apply_unknown_after_transform :
    apply [⟨" a ".data, "b".data, []⟩] ["trim_space".data, "nope".data] =
      .err [⟨"a".data, "b".data, []⟩] "nope".data ∧
    [Card.mk "a".data "b".data []] ≠ [Card.mk " a ".data "b".data []] := by decide

/-- C5 (amended): when the names before the first unknown one are all
registered, `apply` fails exactly on reaching the unknown name, with every
earlier stage already applied to the whole card list; the cards are
untouched only when the unknown name comes first. -/
theorem apply_unknown_reached_after_prefix (cards : List Card) (pre : List Str)
    (bad : Str) (rest : List Str)
    (h1 : ∀ n ∈ pre, (lookupAction n).isSome = true)
    (h2 : (lookupAction bad).isNone = true) :
    apply cards (pre ++ bad :: rest) = .err (applyKnown cards pre) bad :=
  applyReachesUnknown pre cards bad rest h1 h2

theorem apply_unknown_reached_after_prefix_witness :
    (∀ n ∈ ["trim_space".data], (lookupAction n).isSome = true) ∧
    (lookupAction "nope".data).isNone = true ∧
    apply [⟨" a ".data, "b".data, []⟩] (["trim_space".data] ++ "nope".data :: []) =
      .err (applyKnown [⟨" a ".data, "b".data, []⟩] ["trim_space".data]) "nope".data :=
  ⟨by decide, by decide,
   apply_unknown_reached_after_prefix [⟨" a ".data, "b".data, []⟩] ["trim_space".data]
     "nope".data [] (by decide) (by decide)⟩

/-- C6: the end-to-end scenario with the default separator patterns,
actions `trim_space` then `uniform_space`, deduplication, and the literal
output separators tab and newline: the duplicate `abandon` card is merged,
the output is the two expected lines in first-occurrence order, and
exactly one duplicate warning (for `abandon`) and no differing-definition
warning are logged. -/
theorem end_to_end_default_pipeline :
    runPipeline "abandon<sep>放弃<card>ability<sep>能力<card>abandon<sep>放弃  ".data
        ["trim_space".data, "uniform_space".data] =
      some ("abandon\t放弃\nability\t能力".data, [Warn.dup "abandon".data]) := by decide

/-- C7: on a repeated dedup key, `deduplicate` logs a duplicate warning for
the incoming word, logs a second warning exactly when the definitions
differ, and stores a card whose word and definition are the length-maxima
(incoming first, so the longer string wins) and whose picture is the
incoming card's picture. -/
theorem deduplicate_merge_longest (c1 c2 : Card)
    (hk : dedupKey c1.word = dedupKey c2.word) :
    deduplicate [c1, c2] =
      ([⟨pyMaxLen c2.word c1.word, pyMaxLen c2.definition c1.definition, c2.picture⟩],
       Warn.dup c2.word ::
         (if c1.definition = c2.definition then []
          else [Warn.diff c1.definition c2.definition])) :=
  dedup_pair c1 c2 hk

theorem deduplicate_merge_longest_witness :
    dedupKey "cat".data = dedupKey "cat".data ∧
    deduplicate [⟨"cat".data, "小猫".data, []⟩, ⟨"cat".data, "小猫咪".data, []⟩] =
      ([⟨"cat".data, "小猫咪".data, []⟩],
       [Warn.dup "cat".data, Warn.diff "小猫".data "小猫咪".data]) :=
  ⟨rfl,
   (deduplicate_merge_longest ⟨"cat".data, "小猫".data, []⟩
     ⟨"cat".data, "小猫咪".data, []⟩ rfl).trans (by decide)⟩

/-- C8 (counterexample): the round trip fails for a separator that
overlaps itself across a field boundary even though no field contains the
separator as a substring: dumping `("a", "a")` with word/definition
separator `"aa"` gives `"aaaa"`, which loads back as three empty fields,
that is, as the card `("", "", "")`. -/
theorem roundtrip_fails_overlapping_sep :
    ("a".data ≠ []) ∧
    containsSub "aa".data "a".data = false ∧
    containsSub "Z".data "a".data = false ∧
    loadsLit "aa".data "Z".data (dumps "aa".data "Z".data [⟨"a".data, "a".data, []⟩]) =
      .ok [⟨[], [], []⟩] ∧
    (Except.ok [(⟨[], [], []⟩ : Card)] ≠
      (.ok [(⟨"a".data, "a".data, []⟩ : Card)] : Except LoadError (List Card))) := by decide

/-- C8 (amended): the round trip `loads (dumps cards) = cards` holds for
distinct single-character separators that are not regex metacharacters
(so that `re.compile` treats each separator as the literal character),
when no card field contains either separator character, all fields are
non-empty, and all pictures are empty (dump discards pictures). -/
theorem roundtrip_single_char_seps (s1 s2 : Char) (cards : List Card)
    (hne : s1 ≠ s2)
    (hm1 : isRegexMeta s1 = false) (hm2 : isRegexMeta s2 = false)
    (hc : ∀ c ∈ cards, RoundTrippable s1 s2 c) :
    loadsChar s1 s2 (dumps [s1] [s2] cards) = .ok cards :=
  roundtrip_aux s1 s2 hne cards hc

theorem roundtrip_single_char_seps_witness :
    ('\t' ≠ '\n') ∧
    isRegexMeta '\t' = false ∧
    isRegexMeta '\n' = false ∧
    (∀ c ∈ [Card.mk "ab".data "cd".data [], Card.mk "e".data "f".data []],
      RoundTrippable '\t' '\n' c) ∧
    loadsChar '\t' '\n'
        (dumps ['\t'] ['\n'] [Card.mk "ab".data "cd".data [], Card.mk "e".data "f".data []]) =
      .ok [Card.mk "ab".data "cd".data [], Card.mk "e".data "f".data []] :=
  ⟨by decide, by decide, by decide, by decide,
   roundtrip_single_char_seps '\t' '\n'
     [Card.mk "ab".data "cd".data [], Card.mk "e".data "f".data []]
     (by decide) (by decide) (by decide) (by decide)⟩

/-- C9: registering a name already present in the jump table fails with
the duplicate-name error before the assignment, so the table a caller
observes afterwards is unchanged; and a successful registration preserves
distinctness of the registered names. -/
theorem register_duplicate_rejected {α : Type} (t : List (Str × α)) (n : Str) (a : α) :
    (n ∈ t.map Prod.fst → register t n a = .error n ∧ registerPost t n a = t) ∧
    ((t.map Prod.fst).Nodup → ((registerPost t n a).map Prod.fst).Nodup) := by
  constructor
  · intro h
    constructor
    · simp [register, h]
    · simp [registerPost, register, h]
  · intro hnd
    by_cases h : n ∈ t.map Prod.fst
    · simpa [registerPost, register, h] using hnd
    · simp [registerPost, register, h, List.nodup_append, hnd]

theorem register_duplicate_rejected_witness :
    register [("a".data, (1 : Nat))] "a".data 2 = .error "a".data ∧
    registerPost [("a".data, (1 : Nat))] "a".data 2 = [("a".data, 1)] ∧
    ((registerPost [("a".data, (1 : Nat))] "a".data 2).map Prod.fst).Nodup := by
  have h := register_duplicate_rejected [("a".data, (1 : Nat))] "a".data 2
  exact ⟨(h.1 (by decide)).1, (h.1 (by decide)).2, h.2 (by decide)⟩

/-- C10: when a repeated key's incoming and stored words (or definitions)
have equal length, the stored merged card keeps the incoming (later)
card's word (or definition), because `max(card.x, other.x, key=len)` puts
the incoming field first and ties keep the first argument. -/
theorem deduplicate_tie_keeps_incoming (c1 c2 : Card)
    (hk : dedupKey c1.word = dedupKey c2.word) :
    (c1.word.length = c2.word.length →
      (deduplicate [c1, c2]).1.map Card.word = [c2.word]) ∧
    (c1.definition.length = c2.definition.length →
      (deduplicate [c1, c2]).1.map Card.definition = [c2.definition]) := by
  rw [dedup_pair c1 c2 hk]
  constructor
  · intro hw
    simp [pyMaxLen, hw]
  · intro hd
    simp [pyMaxLen, hd]

theorem deduplicate_tie_keeps_incoming_witness :
    dedupKey "el dog".data = dedupKey "la dog".data ∧
    ("el dog".data.length = "la dog".data.length) ∧
    ("AA".data.length = "BB".data.length) ∧
    (deduplicate [⟨"el dog".data, "AA".data, "p1".data⟩,
        ⟨"la dog".data, "BB".data, "p2".data⟩]).1.map Card.word = ["la dog".data] ∧
    (deduplicate [⟨"el dog".data, "AA".data, "p1".data⟩,
        ⟨"la dog".data, "BB".data, "p2".data⟩]).1.map Card.definition = ["BB".data] := by
  refine ⟨by decide, by decide, by decide, ?_, ?_⟩
  · exact (deduplicate_tie_keeps_incoming ⟨"el dog".data, "AA".data, "p1".data⟩
      ⟨"la dog".data, "BB".data, "p2".data⟩ (by decide)).1 (by decide)
  · exact (deduplicate_tie_keeps_incoming ⟨"el dog".data, "AA".data, "p1".data⟩
      ⟨"la dog".data, "BB".data, "p2".data⟩ (by decide)).2 (by decide)
